import Mathlib

/-!
Verification of `src/inventory_system.py`: an in-memory inventory store
(a Python dict from item name to integer quantity) with add/remove/query
operations and JSON persistence.

Modelling conventions:
* The Python dict `stock_data : Dict[str, int]` is modelled as an
  association list `Store := List (String × Int)` with Python-dict update
  semantics: assignment overwrites in place when the key is present and
  appends otherwise; `pop` removes the entry; iteration order is the list
  order (Python dicts preserve insertion order).
* Python run-time values passed as `qty` / `threshold`, and the values
  appearing in a parsed JSON document, are modelled by `PyVal`.  Python's
  `bool` is a subtype of `int`, so `isinstance(x, int)` accepts `True` and
  `False`; `PyVal.isInstInt` reflects that, and `PyVal.intVal` gives the
  numeric value Python arithmetic uses (`True == 1`, `False == 0`).
  When a value is stored into the dict it is an `int` (or a `bool`, whose
  observable numeric behaviour is its integer value), so store values are
  kept as `Int`.
* Floats are carried as rationals; they are never computed with — a float
  only ever fails the `isinstance(_, int)` check.
* Exceptions are modelled with `Except Err`.  The error names follow the
  specification's taxonomy; in the source they are `ValueError` for bad
  arguments and for a non-object top level, `json.JSONDecodeError` for
  unparseable content, and `OSError` for unreadable files.
* `open(file)` / `json.load(f)` are modelled by a `FileContent` value:
  the file is unreadable, or readable but not valid JSON, or parses to a
  `PyVal`.  In `load_data` every raise point (`open`, `json.load`, the
  `isinstance(data, dict)` check) precedes `stock_data.clear()`, so
  returning `Except` (state replaced only on success) is faithful.
-/

/-- A Python run-time value, as far as this module can observe one. -/
inductive PyVal where
  | int (n : Int)
  | bool (b : Bool)
  | str (s : String)
  | float (q : ℚ)
  | none
  | list (xs : List PyVal)
  | dict (entries : List (PyVal × PyVal))

/-- `isinstance(v, int)` — Python's `bool` is a subtype of `int`. -/
def PyVal.isInstInt : PyVal → Bool
  | .int _ => true
  | .bool _ => true
  | _ => false

/-- `isinstance(v, str)`. -/
def PyVal.isInstStr : PyVal → Bool
  | .str _ => true
  | _ => false

/-- `isinstance(v, dict)`. -/
def PyVal.isInstDict : PyVal → Bool
  | .dict _ => true
  | _ => false

/-- The integer value Python arithmetic and comparisons use for an
`int`-instance (`True == 1`, `False == 0`).  Defaults to 0 elsewhere;
only ever consulted after an `isInstInt` check. -/
def PyVal.intVal : PyVal → Int
  | .int n => n
  | .bool b => if b then 1 else 0
  | _ => 0

/-- How Python's f-string renders the quantity in the log line
(`f"... Added {qty} of ..."`): `repr` of an int or a bool. -/
def PyVal.pyRepr : PyVal → String
  | .int n => toString n
  | .bool b => if b then "True" else "False"
  | _ => ""

/-- The in-memory store `stock_data : Dict[str, int]` as an insertion-ordered
association list. -/
abbrev Store := List (String × Int)

/-- `stock_data.get(k)` as an `Option`: the value at the (unique, in real
dicts) first entry with key `k`. -/
def dictFind (s : Store) (k : String) : Option Int :=
  (s.find? (fun p => p.1 == k)).map Prod.snd

/-- `stock_data.get(k, d)`. -/
def dictGet (s : Store) (k : String) (d : Int) : Int :=
  (dictFind s k).getD d

/-- `stock_data[k] = v`: overwrite the entry for `k` in place when present
(dict keys are unique), append otherwise. -/
def dictSet : Store → String → Int → Store
  | [], k, v => [(k, v)]
  | p :: rest, k, v =>
      if p.1 == k then (k, v) :: rest else p :: dictSet rest k v

/-- `stock_data.pop(k, None)`: drop the entry for `k` (no error if absent). -/
def dictPop (s : Store) (k : String) : Store :=
  s.filter (fun p => p.1 != k)

/-- The error taxonomy of the specification (in the source: `ValueError`,
`json.JSONDecodeError`, `OSError`). -/
inductive Err where
  | invalidArgument
  | invalidFormat
  | parseError
  | ioError
deriving DecidableEq

/-- `not item.strip()`: the name is empty or entirely whitespace. -/
def isBlank (item : String) : Bool :=
  item.toList.all Char.isWhitespace

/-- The log line `f"{datetime.now().isoformat()}: Added {qty} of {item}"`;
`now` stands for the timestamp. -/
def logLine (now : String) (qty : PyVal) (item : String) : String :=
  now ++ ": Added " ++ qty.pyRepr ++ " of " ++ item

/-- `add_item(item, qty, logs)` from `src/inventory_system.py`.
`now` models `datetime.now().isoformat()`.  The caller's `logs` list (absent
when `None`) is returned updated alongside the store. -/
def add_item (item : String) (qty : PyVal) (logs : Option (List String))
    (now : String) (s : Store) : Except Err (Store × Option (List String)) :=
  if isBlank item then .error .invalidArgument
  else if qty.isInstInt = false ∨ qty.intVal < 0 then .error .invalidArgument
  else
    .ok (dictSet s item (dictGet s item 0 + qty.intVal),
         logs.map (fun l => l ++ [logLine now qty item]))

/-- `remove_item(item, qty)` from `src/inventory_system.py`. -/
def remove_item (item : String) (qty : PyVal) (s : Store) : Except Err Store :=
  if isBlank item then .error .invalidArgument
  else if qty.isInstInt = false ∨ qty.intVal < 0 then .error .invalidArgument
  else
    if dictGet s item 0 - qty.intVal ≤ 0 then .ok (dictPop s item)
    else .ok (dictSet s item (dictGet s item 0 - qty.intVal))

/-- `get_qty(item)` from `src/inventory_system.py`. -/
def get_qty (item : String) (s : Store) : Except Err Int :=
  if isBlank item then .error .invalidArgument
  else .ok (dictGet s item 0)

/-- `check_low_items(threshold)` from `src/inventory_system.py`. -/
def check_low_items (threshold : PyVal) (s : Store) : Except Err (List String) :=
  if threshold.isInstInt = false ∨ threshold.intVal < 0 then
    .error .invalidArgument
  else .ok ((s.filter (fun p => p.2 < threshold.intVal)).map Prod.fst)

/-- What `open(file)` followed by `json.load(f)` can yield: the file is
unreadable (`OSError`), readable but not valid JSON (`json.JSONDecodeError`),
or parses to a Python value. -/
inductive FileContent where
  | unreadable
  | unparseable
  | parsed (v : PyVal)

/-- One iteration of the filtering loop in `load_data`:
`if isinstance(key, str) and isinstance(value, int) and value >= 0:
new_data[key] = value`. -/
def loadFilterStep (acc : Store) (kv : PyVal × PyVal) : Store :=
  match kv.1 with
  | .str key =>
      if kv.2.isInstInt = true ∧ 0 ≤ kv.2.intVal then dictSet acc key kv.2.intVal
      else acc
  | _ => acc

/-- The `new_data` dict that `load_data` builds from the parsed document's
entries. -/
def filterEntries (entries : List (PyVal × PyVal)) : Store :=
  entries.foldl loadFilterStep []

/-- `load_data(file)` from `src/inventory_system.py`.  The store parameter is
the pre-call `stock_data`; on success the result is `new_data` alone because
the source does `stock_data.clear(); stock_data.update(new_data)`. -/
def load_data (file : FileContent) (s : Store) : Except Err Store :=
  match file with
  | .unreadable => .error .ioError
  | .unparseable => .error .parseError
  | .parsed v =>
      match v with
      | .dict entries => .ok (filterEntries entries)
      | _ => .error .invalidFormat

/-- `save_data(file)` from `src/inventory_system.py`: the JSON document
`json.dump` writes — the store's entries, in order, as a JSON object. -/
def save_data (s : Store) : PyVal :=
  .dict (s.map (fun p => (.str p.1, .int p.2)))

/-- The post-call store of `load_data`: unchanged when the call raises. -/
def loadStep (file : FileContent) (s : Store) : Store :=
  match load_data file s with
  | .ok s2 => s2
  | .error _ => s

/-- The reachable states of `stock_data`: empty at module load, then mutated
only by successful `add_item` / `remove_item` / `load_data` calls (a raising
call leaves the dict untouched: in the source every raise precedes the
mutation). -/
inductive Reachable : Store → Prop where
  | empty : Reachable []
  | addStep (s : Store) (item : String) (qty : PyVal)
      (logs : Option (List String)) (now : String) (s' : Store)
      (logs' : Option (List String)) :
      Reachable s → add_item item qty logs now s = .ok (s', logs') →
      Reachable s'
  | removeStep (s : Store) (item : String) (qty : PyVal) (s' : Store) :
      Reachable s → remove_item item qty s = .ok s' → Reachable s'
  | loadStep (s : Store) (file : FileContent) (s' : Store) :
      Reachable s → load_data file s = .ok s' → Reachable s'

example : add_item "x" (.int 0) Option.none "t" [] = .ok ([("x", 0)], Option.none) := rfl
example : remove_item "ghost" (.int 3) [] = .ok [] := rfl
example : load_data (.parsed (.dict [(.str "a", .int 3), (.str "b", .int (-1)),
    (.str "c", .str "x"), (.str "d", .int 2)])) [("old", 9)] = .ok [("a", 3), ("d", 2)] := rfl
example : add_item "x" (.bool true) Option.none "t" [] = .ok ([("x", 1)], Option.none) := rfl
example : check_low_items (.int 5) [("apple", 10), ("banana", 2)] = .ok ["banana"] := rfl

/-! ### Association-list (dict) lemmas -/

theorem dictFind_cons (p : String × Int) (rest : Store) (k : String) :
    dictFind (p :: rest) k = if p.1 == k then some p.2 else dictFind rest k := by
  by_cases h : p.1 == k <;> simp [dictFind, List.find?_cons, h]

theorem dictFind_set_self (s : Store) (k : String) (v : Int) :
    dictFind (dictSet s k v) k = some v := by
  induction s with
  | nil => simp [dictSet, dictFind, List.find?_cons]
  | cons p rest ih =>
      by_cases h : p.1 == k
      · simp [dictSet, h, dictFind_cons]
      · simp [dictSet, h, dictFind_cons, ih]

theorem dictPop_cons (p : String × Int) (rest : Store) (k : String) :
    dictPop (p :: rest) k =
      if p.1 == k then dictPop rest k else p :: dictPop rest k := by
  by_cases h : p.1 = k <;> simp [dictPop, List.filter_cons, h]

theorem dictFind_pop_self (s : Store) (k : String) :
    dictFind (dictPop s k) k = none := by
  induction s with
  | nil => simp [dictPop, dictFind]
  | cons p rest ih =>
      rw [dictPop_cons]
      by_cases h : p.1 == k
      · simpa [h] using ih
      · simpa [h, dictFind_cons] using ih

theorem dictPop_eq_of_absent (s : Store) (k : String)
    (h : dictFind s k = none) : dictPop s k = s := by
  induction s with
  | nil => simp [dictPop]
  | cons p rest ih =>
      rw [dictFind_cons] at h
      rw [dictPop_cons]
      by_cases hp : p.1 == k
      · simp [hp] at h
      · simp only [hp, if_neg, Bool.false_eq_true, not_false_iff]
        simp only [hp, if_neg, Bool.false_eq_true, not_false_iff] at h
        rw [ih h]

theorem dictGet_of_absent (s : Store) (k : String) (d : Int)
    (h : dictFind s k = none) : dictGet s k d = d := by
  simp [dictGet, h]

theorem dictFind_some_mem (s : Store) (k : String) (v : Int)
    (h : dictFind s k = some v) : ∃ k2, (k2, v) ∈ s := by
  induction s with
  | nil => simp [dictFind] at h
  | cons p rest ih =>
      rw [dictFind_cons] at h
      by_cases hp : p.1 == k
      · simp [hp] at h
        exact ⟨p.1, by simp [← h]⟩
      · simp [hp] at h
        obtain ⟨k2, hk2⟩ := ih h
        exact ⟨k2, List.mem_cons_of_mem _ hk2⟩

theorem mem_dictSet (s : Store) (k : String) (v : Int) (kv : String × Int)
    (h : kv ∈ dictSet s k v) : kv = (k, v) ∨ kv ∈ s := by
  induction s with
  | nil => simpa [dictSet] using h
  | cons p rest ih =>
      by_cases hp : p.1 == k
      · simp [dictSet, hp] at h
        rcases h with h | h
        · exact Or.inl (by simp [h])
        · exact Or.inr (List.mem_cons_of_mem _ h)
      · simp [dictSet, hp] at h
        rcases h with h | h
        · exact Or.inr (by simp [h])
        · rcases ih h with h2 | h2
          · exact Or.inl h2
          · exact Or.inr (List.mem_cons_of_mem _ h2)

theorem mem_dictPop (s : Store) (k : String) (kv : String × Int)
    (h : kv ∈ dictPop s k) : kv ∈ s :=
  List.mem_of_mem_filter h

theorem mem_keys_dictSet (s : Store) (k : String) (v : Int) (a : String)
    (h : a ∈ (dictSet s k v).map Prod.fst) :
    a ∈ s.map Prod.fst ∨ a = k := by
  simp only [List.mem_map] at h
  obtain ⟨kv, hkv, ha⟩ := h
  rcases mem_dictSet s k v kv hkv with h2 | h2
  · right; rw [← ha, h2]
  · exact Or.inl (List.mem_map.mpr ⟨kv, h2, ha⟩)

theorem keys_nodup_dictSet (s : Store) (k : String) (v : Int)
    (h : (s.map Prod.fst).Nodup) : ((dictSet s k v).map Prod.fst).Nodup := by
  induction s with
  | nil => simp [dictSet]
  | cons p rest ih =>
      simp only [List.map_cons, List.nodup_cons] at h
      by_cases hp : p.1 == k
      · have hpk : p.1 = k := by simpa using hp
        simp only [dictSet, hp, if_pos]
        simp only [List.map_cons, List.nodup_cons]
        exact ⟨hpk ▸ h.1, h.2⟩
      · have hpk : ¬ p.1 = k := by simpa using hp
        simp only [dictSet, hp, if_neg, Bool.false_eq_true, not_false_iff]
        simp only [List.map_cons, List.nodup_cons]
        refine ⟨fun hmem => ?_, ih h.2⟩
        rcases mem_keys_dictSet rest k v p.1 hmem with h2 | h2
        · exact h.1 h2
        · exact hpk h2

theorem keys_nodup_dictPop (s : Store) (k : String)
    (h : (s.map Prod.fst).Nodup) : ((dictPop s k).map Prod.fst).Nodup := by
  induction s with
  | nil => simp [dictPop]
  | cons p rest ih =>
      simp only [List.map_cons, List.nodup_cons] at h
      rw [dictPop_cons]
      by_cases hp : p.1 == k
      · simpa [hp] using ih h.2
      · simp only [hp, if_neg, Bool.false_eq_true, not_false_iff]
        simp only [List.map_cons, List.nodup_cons]
        refine ⟨fun hmem => ?_, ih h.2⟩
        simp only [List.mem_map] at hmem
        obtain ⟨kv, hkv, ha⟩ := hmem
        exact h.1 (List.mem_map.mpr ⟨kv, mem_dictPop rest k kv hkv, ha⟩)

/-! ### The store invariant over reachable states -/

/-- Well-formedness of the dict model: keys are pairwise distinct (true of
every Python dict) and every stored quantity is non-negative. -/
def StoreInv (s : Store) : Prop :=
  (s.map Prod.fst).Nodup ∧ ∀ kv ∈ s, 0 ≤ kv.2

theorem dictGet_nonneg (s : Store) (k : String) (h : StoreInv s) :
    0 ≤ dictGet s k 0 := by
  cases hf : dictFind s k with
  | none => simp [dictGet, hf]
  | some v =>
      obtain ⟨k2, hmem⟩ := dictFind_some_mem s k v hf
      have := h.2 _ hmem
      simpa [dictGet, hf] using this

theorem storeInv_dictSet (s : Store) (k : String) (v : Int)
    (h : StoreInv s) (hv : 0 ≤ v) : StoreInv (dictSet s k v) := by
  refine ⟨keys_nodup_dictSet s k v h.1, fun kv hkv => ?_⟩
  rcases mem_dictSet s k v kv hkv with h2 | h2
  · simp [h2, hv]
  · exact h.2 _ h2

theorem storeInv_dictPop (s : Store) (k : String) (h : StoreInv s) :
    StoreInv (dictPop s k) :=
  ⟨keys_nodup_dictPop s k h.1, fun kv hkv => h.2 _ (mem_dictPop s k kv hkv)⟩

theorem storeInv_loadFilterStep (acc : Store) (kv : PyVal × PyVal)
    (h : StoreInv acc) : StoreInv (loadFilterStep acc kv) := by
  unfold loadFilterStep
  split
  · split
    next hc => exact storeInv_dictSet _ _ _ h hc.2
    next => exact h
  · exact h

theorem storeInv_foldl (entries : List (PyVal × PyVal)) (acc : Store)
    (h : StoreInv acc) : StoreInv (entries.foldl loadFilterStep acc) := by
  induction entries generalizing acc with
  | nil => simpa using h
  | cons kv rest ih =>
      simpa [List.foldl_cons] using ih _ (storeInv_loadFilterStep acc kv h)

theorem storeInv_filterEntries (entries : List (PyVal × PyVal)) :
    StoreInv (filterEntries entries) :=
  storeInv_foldl entries [] ⟨by simp, by simp⟩

/-! ### Characterizations of successful calls -/

theorem add_item_ok (item : String) (qty : PyVal) (logs : Option (List String))
    (now : String) (s : Store) (s' : Store) (logs' : Option (List String))
    (h : add_item item qty logs now s = .ok (s', logs')) :
    isBlank item = false ∧ qty.isInstInt = true ∧ 0 ≤ qty.intVal ∧
    s' = dictSet s item (dictGet s item 0 + qty.intVal) ∧
    logs' = logs.map (fun l => l ++ [logLine now qty item]) := by
  unfold add_item at h
  split at h
  · exact absurd h (by simp)
  next h1 =>
    split at h
    · exact absurd h (by simp)
    next h2 =>
      push_neg at h2
      simp only [Except.ok.injEq, Prod.mk.injEq] at h
      refine ⟨by simpa using h1, by simpa using h2.1, h2.2,
        h.1.symm, h.2.symm⟩

theorem remove_item_ok (item : String) (qty : PyVal) (s : Store) (s' : Store)
    (h : remove_item item qty s = .ok s') :
    isBlank item = false ∧ qty.isInstInt = true ∧ 0 ≤ qty.intVal ∧
    ((dictGet s item 0 - qty.intVal ≤ 0 ∧ s' = dictPop s item) ∨
     (0 < dictGet s item 0 - qty.intVal ∧
      s' = dictSet s item (dictGet s item 0 - qty.intVal))) := by
  unfold remove_item at h
  split at h
  · exact absurd h (by simp)
  next h1 =>
    split at h
    · exact absurd h (by simp)
    next h2 =>
      push_neg at h2
      refine ⟨by simpa using h1, by simpa using h2.1, h2.2, ?_⟩
      split at h
      next h3 =>
        simp only [Except.ok.injEq] at h
        exact Or.inl ⟨h3, h.symm⟩
      next h3 =>
        simp only [Except.ok.injEq] at h
        exact Or.inr ⟨not_le.mp h3, h.symm⟩

theorem load_data_ok (f : FileContent) (s : Store) (s' : Store)
    (h : load_data f s = .ok s') :
    ∃ entries, f = .parsed (.dict entries) ∧ s' = filterEntries entries := by
  cases f with
  | unreadable => exact absurd h (by simp [load_data])
  | unparseable => exact absurd h (by simp [load_data])
  | parsed v =>
      cases v with
      | dict entries =>
          refine ⟨entries, rfl, ?_⟩
          simpa [load_data] using h.symm
      | int n => exact absurd h (by simp [load_data])
      | bool b => exact absurd h (by simp [load_data])
      | str t => exact absurd h (by simp [load_data])
      | float q => exact absurd h (by simp [load_data])
      | none => exact absurd h (by simp [load_data])
      | list xs => exact absurd h (by simp [load_data])

/-- Every reachable state of `stock_data` is a well-formed dict whose
quantities are all non-negative. -/
theorem reachable_storeInv (s : Store) (h : Reachable s) : StoreInv s := by
  induction h with
  | empty => exact ⟨by simp, by simp⟩
  | addStep s item qty logs now s' logs' hr hok ih =>
      obtain ⟨-, -, hq, hs', -⟩ := add_item_ok item qty logs now s s' logs' hok
      rw [hs']
      exact storeInv_dictSet s item _ ih (add_nonneg (dictGet_nonneg s item ih) hq)
  | removeStep s item qty s' hr hok ih =>
      obtain ⟨-, -, -, hcase⟩ := remove_item_ok item qty s s' hok
      rcases hcase with ⟨-, hs'⟩ | ⟨hpos, hs'⟩
      · rw [hs']; exact storeInv_dictPop s item ih
      · rw [hs']; exact storeInv_dictSet s item _ ih (le_of_lt hpos)
  | loadStep s f s' hr hok ih =>
      obtain ⟨entries, -, hs'⟩ := load_data_ok f s s' hok
      rw [hs']
      exact storeInv_filterEntries entries

/-! ### The load filter as a per-entry predicate -/

/-- The per-entry test of `load_data`'s loop, as an option-valued map: an entry is
kept exactly when its key is a `str` and its value an `int`-instance that is
non-negative. -/
def keepEntry (kv : PyVal × PyVal) : Option (String × Int) :=
  match kv.1 with
  | .str k =>
      if kv.2.isInstInt = true ∧ 0 ≤ kv.2.intVal then some (k, kv.2.intVal)
      else Option.none
  | _ => Option.none

theorem loadFilterStep_eq_some (acc : Store) (kv : PyVal × PyVal)
    (k : String) (v : Int) (h : keepEntry kv = some (k, v)) :
    loadFilterStep acc kv = dictSet acc k v := by
  unfold keepEntry at h
  unfold loadFilterStep
  cases hk : kv.1 <;> simp [hk] at h ⊢
  next t =>
    rw [if_pos h.1, h.2.1, h.2.2]

theorem loadFilterStep_eq_none (acc : Store) (kv : PyVal × PyVal)
    (h : keepEntry kv = Option.none) : loadFilterStep acc kv = acc := by
  unfold keepEntry at h
  unfold loadFilterStep
  cases hk : kv.1 <;> simp [hk] at h ⊢
  next t =>
    intro h1 h2
    exact absurd (h h1) (not_lt.mpr h2)

theorem dictSet_eq_of_absent (s : Store) (k : String) (v : Int)
    (h : dictFind s k = none) : dictSet s k v = s ++ [(k, v)] := by
  induction s with
  | nil => simp [dictSet]
  | cons p rest ih =>
      rw [dictFind_cons] at h
      by_cases hp : p.1 == k
      · simp [hp] at h
      · simp only [hp, if_neg, Bool.false_eq_true, not_false_iff] at h
        simp [dictSet, hp, ih h]

theorem dictFind_append_singleton (s : Store) (k a : String) (v : Int)
    (hs : dictFind s a = none) (hne : a ≠ k) :
    dictFind (s ++ [(k, v)]) a = none := by
  induction s with
  | nil =>
      have hka : (k == a) = false := by simpa using Ne.symm hne
      simp [dictFind, List.find?_cons, hka]
  | cons p rest ih =>
      rw [dictFind_cons] at hs
      by_cases hp : p.1 == a
      · simp [hp] at hs
      · simp only [hp, if_neg, Bool.false_eq_true, not_false_iff] at hs
        rw [List.cons_append, dictFind_cons]
        simp only [hp, if_neg, Bool.false_eq_true, not_false_iff]
        exact ih hs

/-- The filtering loop, started from any dict whose keys avoid the kept
entries' keys, appends exactly the kept entries (when those keys are
pairwise distinct, as they are in a real JSON document). -/
theorem foldl_loadFilterStep_eq (entries : List (PyVal × PyVal)) (acc : Store)
    (hnd : ((entries.filterMap keepEntry).map Prod.fst).Nodup)
    (hdisj : ∀ a ∈ (entries.filterMap keepEntry).map Prod.fst,
      dictFind acc a = none) :
    entries.foldl loadFilterStep acc = acc ++ entries.filterMap keepEntry := by
  induction entries generalizing acc with
  | nil => simp
  | cons kv rest ih =>
      cases hk : keepEntry kv with
      | none =>
          rw [List.foldl_cons, loadFilterStep_eq_none acc kv hk]
          simp only [List.filterMap_cons, hk] at hnd hdisj ⊢
          exact ih acc hnd hdisj
      | some p =>
          obtain ⟨k, v⟩ := p
          rw [List.foldl_cons, loadFilterStep_eq_some acc kv k v hk]
          have hkacc : dictFind acc k = none :=
            hdisj k (by simp [List.filterMap_cons, hk])
          rw [dictSet_eq_of_absent acc k v hkacc]
          simp only [List.filterMap_cons, hk] at hnd ⊢
          rw [List.map_cons, List.nodup_cons] at hnd
          rw [ih (acc ++ [(k, v)]) hnd.2 ?_, List.append_assoc]
          · simp
          · intro a ha
            refine dictFind_append_singleton acc k a v (hdisj a ?_) ?_
            · simp [List.filterMap_cons, hk, ha]
            · intro hak
              exact hnd.1 (hak ▸ ha)

/-- `new_data` is exactly the kept entries, in document order, whenever the
kept keys are pairwise distinct (always true of a parsed JSON object, whose
keys are unique). -/
theorem filterEntries_eq (entries : List (PyVal × PyVal))
    (hnd : ((entries.filterMap keepEntry).map Prod.fst).Nodup) :
    filterEntries entries = entries.filterMap keepEntry := by
  have h := foldl_loadFilterStep_eq entries [] hnd (by intro a _; simp [dictFind])
  simpa [filterEntries] using h

theorem keepEntry_save (p : String × Int) (h : 0 ≤ p.2) :
    keepEntry ((.str p.1 : PyVal), (.int p.2 : PyVal)) = some p := by
  simp [keepEntry, PyVal.isInstInt, PyVal.intVal, h]

theorem filterMap_keepEntry_save (s : Store) (h : ∀ kv ∈ s, 0 ≤ kv.2) :
    (s.map (fun p => ((.str p.1 : PyVal), (.int p.2 : PyVal)))).filterMap
      keepEntry = s := by
  induction s with
  | nil => simp
  | cons p rest ih =>
      rw [List.map_cons, List.filterMap_cons,
        keepEntry_save p (h p (List.mem_cons_self p rest))]
      rw [ih (fun kv hkv => h kv (List.mem_cons_of_mem p hkv))]

/-- Saving any well-formed store and loading the written document restores
the store exactly, whatever the store contents were at load time. -/
theorem save_load_roundtrip (s t : Store) (h : StoreInv s) :
    load_data (.parsed (save_data s)) t = .ok s := by
  have h1 := filterMap_keepEntry_save s h.2
  have hnd : (((s.map (fun p => ((.str p.1 : PyVal), (.int p.2 : PyVal)))).filterMap
      keepEntry).map Prod.fst).Nodup := by
    rw [h1]; exact h.1
  simp only [load_data, save_data]
  rw [filterEntries_eq _ hnd, h1]

/-! ### Helper equations for validated calls (shared by the claim theorems) -/

theorem add_item_eq (item : String) (qty : PyVal) (logs : Option (List String))
    (now : String) (s : Store) (hitem : isBlank item = false)
    (hq : qty.isInstInt = true) (hq0 : 0 ≤ qty.intVal) :
    add_item item qty logs now s =
      .ok (dictSet s item (dictGet s item 0 + qty.intVal),
           logs.map (fun l => l ++ [logLine now qty item])) := by
  unfold add_item
  rw [if_neg (by simp [hitem]),
    if_neg (by push_neg; exact ⟨by simp [hq], hq0⟩)]

theorem remove_item_eq (item : String) (qty : PyVal) (s : Store)
    (hitem : isBlank item = false) (hq : qty.isInstInt = true)
    (hq0 : 0 ≤ qty.intVal) :
    remove_item item qty s =
      if dictGet s item 0 - qty.intVal ≤ 0 then .ok (dictPop s item)
      else .ok (dictSet s item (dictGet s item 0 - qty.intVal)) := by
  unfold remove_item
  rw [if_neg (by simp [hitem]),
    if_neg (by push_neg; exact ⟨by simp [hq], hq0⟩)]

/-! ### The claims -/

/-- Claim C1, as stated, is false on the code: the state `{"x": 0}` is
reachable (by `add_item("x", 0)` from the empty store, whose validation
accepts `qty = 0`), and it contains the key `"x"` with the non-positive
quantity `0`.  So not every reachable state keeps only strictly positive
values, and `add` can leave an entry whose quantity is 0. -/
theorem claim1_counterexample :
    Reachable [("x", (0 : Int))] ∧
    dictFind [("x", (0 : Int))] "x" = some 0 ∧ ¬ (0 : Int) < 0 :=
  ⟨Reachable.addStep [] "x" (.int 0) Option.none "t" [("x", 0)] Option.none
    Reachable.empty rfl,
   rfl, by omega⟩

/-- Claim C1 (amended): every reachable state stores only non-negative
quantities, and `remove_item` never leaves an entry for the removed item
with a quantity that is 0 or less (it deletes the entry when the result
reaches `<= 0`).  However `add_item` with `qty = 0` on a missing item, and
`load_data` of a document holding a value 0, can leave an entry whose
quantity is exactly 0, so "strictly positive for every operation" does not
hold. -/
theorem claim1_amended_thm :
    (∀ s, Reachable s → ∀ kv ∈ s, 0 ≤ kv.2) ∧
    (∀ item qty s s2, remove_item item qty s = Except.ok s2 →
      ∀ v, dictFind s2 item = some v → 0 < v) := by
  constructor
  · exact fun s h => (reachable_storeInv s h).2
  · intro item qty s s2 hok v hv
    obtain ⟨-, -, -, hcase⟩ := remove_item_ok item qty s s2 hok
    rcases hcase with ⟨-, hs2⟩ | ⟨hpos, hs2⟩
    · rw [hs2, dictFind_pop_self] at hv
      exact absurd hv (by simp)
    · rw [hs2, dictFind_set_self] at hv
      have : dictGet s item 0 - qty.intVal = v := by simpa using hv
      omega

/-- Witness for the amended C1 at the concrete reachable state
`{"x": 0}` produced by `add_item("x", 0)`. -/
theorem claim1_amended_witness : (0 : Int) ≤ ("x", (0 : Int)).2 :=
  claim1_amended_thm.1 [("x", 0)]
    (Reachable.addStep [] "x" (.int 0) Option.none "t" [("x", 0)] Option.none
      Reachable.empty rfl)
    ("x", 0) (by simp)

/-- Claim C2: in every reachable state of `stock_data`, every stored
quantity is non-negative (integrality is enforced by the `isinstance` checks
of `add_item`/`remove_item` and the filtering loop of `load_data`, which
only ever store the integer value of an `int`-instance — hence the store's
codomain `Int` in this model). -/
theorem claim2_nonneg (s : Store) (h : Reachable s) : ∀ kv ∈ s, 0 ≤ kv.2 :=
  (reachable_storeInv s h).2

/-- Witness for C2 at the reachable state `{"apple": 7}`. -/
theorem claim2_witness : (0 : Int) ≤ ("apple", (7 : Int)).2 :=
  claim2_nonneg [("apple", 7)]
    (Reachable.addStep [] "apple" (.int 7) Option.none "t" [("apple", 7)]
      Option.none Reachable.empty rfl)
    ("apple", 7) (by simp)

/-- Claim C3: `load_data`'s outcome is independent of the pre-call store
(never a merge); a parsed object document replaces the store with exactly
the filtered entries; and a failing load leaves the store exactly as it was
(in the source, every raise point precedes `stock_data.clear()`). -/
theorem claim3_load_full_replace (f : FileContent) (s t : Store) :
    load_data f s = load_data f t ∧
    (∀ entries, f = .parsed (.dict entries) →
      load_data f s = .ok (filterEntries entries)) ∧
    (∀ e, load_data f s = .error e → loadStep f s = s) := by
  refine ⟨rfl, fun entries hf => ?_, fun e he => ?_⟩
  · rw [hf]; rfl
  · unfold loadStep
    rw [he]

/-- Witness for C3: loading the document `{"a": 1}` over the pre-existing
store `{"old": 5}` yields exactly the filtered document. -/
theorem claim3_witness :
    load_data (.parsed (.dict [((.str "a" : PyVal), (.int 1 : PyVal))]))
      [("old", 5)] =
      .ok (filterEntries [((.str "a" : PyVal), (.int 1 : PyVal))]) :=
  (claim3_load_full_replace
    (.parsed (.dict [(.str "a", .int 1)])) [("old", 5)] []).2.1
    [(.str "a", .int 1)] rfl

/-- Claim C4: a blank/empty item name, or a `qty` that is not an
`int`-instance or is negative, makes `add_item` and `remove_item` raise
`InvalidArgument`; `check_low_items` raises likewise for a bad threshold.
An error result carries no new store and no new log list: in the source the
raise precedes the assignment and the log append, so the store and the
caller's log sink are untouched. -/
theorem claim4_validation (item : String) (qty : PyVal)
    (logs : Option (List String)) (now : String) (s : Store)
    (threshold : PyVal) :
    (isBlank item = true →
      add_item item qty logs now s = .error .invalidArgument ∧
      remove_item item qty s = .error .invalidArgument) ∧
    (qty.isInstInt = false ∨ qty.intVal < 0 →
      add_item item qty logs now s = .error .invalidArgument ∧
      remove_item item qty s = .error .invalidArgument) ∧
    (threshold.isInstInt = false ∨ threshold.intVal < 0 →
      check_low_items threshold s = .error .invalidArgument) := by
  refine ⟨fun hb => ⟨?_, ?_⟩, fun hq => ⟨?_, ?_⟩, fun ht => ?_⟩
  · unfold add_item; rw [if_pos hb]
  · unfold remove_item; rw [if_pos hb]
  · unfold add_item
    by_cases hb : isBlank item = true
    · rw [if_pos hb]
    · rw [if_neg hb, if_pos hq]
  · unfold remove_item
    by_cases hb : isBlank item = true
    · rw [if_pos hb]
    · rw [if_neg hb, if_pos hq]
  · unfold check_low_items; rw [if_pos ht]

/-- Witness for C4: a blank name, a negative quantity, and a non-integral
(float) threshold are each rejected on a concrete call. -/
theorem claim4_witness :
    add_item " " (.int 1) Option.none "t" [] = .error .invalidArgument ∧
    remove_item "x" (.int (-1)) [] = .error .invalidArgument ∧
    check_low_items (.float (1 / 2)) [] = .error .invalidArgument :=
  ⟨((claim4_validation " " (.int 1) Option.none "t" [] (.int 0)).1
      (by decide)).1,
   ((claim4_validation "x" (.int (-1)) Option.none "t" [] (.int 0)).2.1
      (Or.inr (by decide))).2,
   (claim4_validation "x" (.int 1) Option.none "t" [] (.float (1 / 2))).2.2
      (Or.inl (by decide))⟩

/-- Claim C5: for a valid name and a valid (non-negative `int`-instance)
quantity, `remove_item` subtracts from the current quantity (0 when the
item is missing), deletes the entry when the result is `<= 0`, stores the
result otherwise — and on a missing item it does not raise and leaves the
store unchanged. -/
theorem claim5_remove (item : String) (qty : PyVal) (s : Store)
    (hitem : isBlank item = false) (hq : qty.isInstInt = true)
    (hq0 : 0 ≤ qty.intVal) :
    (dictGet s item 0 - qty.intVal ≤ 0 →
      remove_item item qty s = .ok (dictPop s item)) ∧
    (0 < dictGet s item 0 - qty.intVal →
      remove_item item qty s =
        .ok (dictSet s item (dictGet s item 0 - qty.intVal))) ∧
    (dictFind s item = none → remove_item item qty s = .ok s) := by
  rw [remove_item_eq item qty s hitem hq hq0]
  refine ⟨fun hle => ?_, fun hgt => ?_, fun habs => ?_⟩
  · rw [if_pos hle]
  · rw [if_neg (not_le.mpr hgt)]
  · have h0 : dictGet s item 0 = 0 := dictGet_of_absent s item 0 habs
    rw [if_pos (by omega), dictPop_eq_of_absent s item habs]

/-- Witness for C5: `remove_item("ghost", 3)` on the empty store succeeds
and leaves it empty. -/
theorem claim5_witness : remove_item "ghost" (.int 3) [] = .ok [] :=
  (claim5_remove "ghost" (.int 3) [] (by decide) rfl (by decide)).2.2 rfl

/-- Claim C6: from any store where `item` is absent, `add_item(item, q1)`
followed by `remove_item(item, q2)` with `0 ≤ q2 ≤ q1` succeeds and leaves
`get_qty(item)` equal to `q1 - q2` (the entry is deleted when `q1 = q2`, and
`get_qty` then reports 0). -/
theorem claim6_roundtrip (item : String) (q1 q2 : Int) (s : Store)
    (logs : Option (List String)) (now : String)
    (hitem : isBlank item = false) (h0 : 0 ≤ q2) (h12 : q2 ≤ q1)
    (habs : dictFind s item = none) :
    ∃ s1 logs1 s2,
      add_item item (.int q1) logs now s = .ok (s1, logs1) ∧
      remove_item item (.int q2) s1 = .ok s2 ∧
      get_qty item s2 = .ok (q1 - q2) := by
  have hget : dictGet s item 0 = 0 := dictGet_of_absent s item 0 habs
  have hadd := add_item_eq item (.int q1) logs now s hitem rfl
    (by simp [PyVal.intVal]; omega)
  rw [hget] at hadd
  simp only [PyVal.intVal, zero_add] at hadd
  have hget1 : dictGet (dictSet s item q1) item 0 = q1 := by
    simp [dictGet, dictFind_set_self]
  have hrem := remove_item_eq item (.int q2) (dictSet s item q1) hitem rfl
    (by simp [PyVal.intVal]; omega)
  rw [hget1] at hrem
  simp only [PyVal.intVal] at hrem
  by_cases hc : q1 - q2 ≤ 0
  · have hrem2 : remove_item item (.int q2) (dictSet s item q1) =
        .ok (dictPop (dictSet s item q1) item) := by
      rw [hrem, if_pos hc]
    have hq : get_qty item (dictPop (dictSet s item q1) item) =
        .ok (q1 - q2) := by
      unfold get_qty
      rw [if_neg (by simp [hitem]),
        dictGet_of_absent _ item 0 (dictFind_pop_self _ item)]
      congr 1
      omega
    exact ⟨_, _, _, hadd, hrem2, hq⟩
  · have hrem2 : remove_item item (.int q2) (dictSet s item q1) =
        .ok (dictSet (dictSet s item q1) item (q1 - q2)) := by
      rw [hrem, if_neg hc]
    have hq : get_qty item (dictSet (dictSet s item q1) item (q1 - q2)) =
        .ok (q1 - q2) := by
      unfold get_qty
      rw [if_neg (by simp [hitem])]
      congr 1
      simp [dictGet, dictFind_set_self]
    exact ⟨_, _, _, hadd, hrem2, hq⟩

/-- Witness for C6 at the spec's own numbers: add 7, remove 3, query 4. -/
theorem claim6_witness :
    ∃ s1 logs1 s2,
      add_item "apple" (.int 7) Option.none "t" [] = .ok (s1, logs1) ∧
      remove_item "apple" (.int 3) s1 = .ok s2 ∧
      get_qty "apple" s2 = .ok (7 - 3) :=
  claim6_roundtrip "apple" 7 3 [] Option.none "t" (by decide) (by decide)
    (by decide) rfl

/-- Claim C7: a document with an object top level loads without raising, and
the resulting store keeps exactly the entries whose key is a `str` and whose
value is a non-negative `int`-instance (`keepEntry`); all other entries are
silently dropped.  The distinct-keys hypothesis is always met by a parsed
JSON object, whose keys are unique.  The spec's own example document is
checked verbatim in the second conjunct. -/
theorem claim7_lenient_filter (entries : List (PyVal × PyVal)) (s t : Store)
    (hnd : ((entries.filterMap keepEntry).map Prod.fst).Nodup) :
    load_data (.parsed (.dict entries)) s = .ok (entries.filterMap keepEntry) ∧
    load_data (.parsed (.dict [((.str "a" : PyVal), (.int 3 : PyVal)),
        ((.str "b" : PyVal), (.int (-1) : PyVal)),
        ((.str "c" : PyVal), (.str "x" : PyVal)),
        ((.str "d" : PyVal), (.int 2 : PyVal))])) t =
      .ok [("a", 3), ("d", 2)] := by
  constructor
  · show Except.ok (filterEntries entries) = _
    rw [filterEntries_eq entries hnd]
  · rfl

/-- Witness for C7 on the spec's example document. -/
theorem claim7_witness :
    load_data (.parsed (.dict [((.str "a" : PyVal), (.int 3 : PyVal)),
        ((.str "b" : PyVal), (.int (-1) : PyVal)),
        ((.str "c" : PyVal), (.str "x" : PyVal)),
        ((.str "d" : PyVal), (.int 2 : PyVal))])) [] =
      .ok ([((.str "a" : PyVal), (.int 3 : PyVal)),
        ((.str "b" : PyVal), (.int (-1) : PyVal)),
        ((.str "c" : PyVal), (.str "x" : PyVal)),
        ((.str "d" : PyVal), (.int 2 : PyVal))].filterMap keepEntry) :=
  (claim7_lenient_filter [(.str "a", .int 3), (.str "b", .int (-1)),
    (.str "c", .str "x"), (.str "d", .int 2)] [] [] (by decide)).1

/-- Claim C8: `load_data` distinguishes its failure kinds — unparseable
content raises `ParseError`, a syntactically valid document whose top level
is not a dict raises `InvalidFormat` (a different error), and a parsed
object document raises neither. -/
theorem claim8_load_errors (s : Store) :
    load_data .unparseable s = .error .parseError ∧
    (∀ v : PyVal, v.isInstDict = false →
      load_data (.parsed v) s = .error .invalidFormat) ∧
    (∀ entries, load_data (.parsed (.dict entries)) s =
      .ok (filterEntries entries)) ∧
    Err.parseError ≠ Err.invalidFormat := by
  refine ⟨rfl, fun v hv => ?_, fun entries => rfl, by decide⟩
  cases v with
  | dict entries => exact absurd hv (by simp [PyVal.isInstDict])
  | int n => rfl
  | bool b => rfl
  | str t => rfl
  | float q => rfl
  | none => rfl
  | list xs => rfl

/-- Witness for C8: a top-level list raises `InvalidFormat`. -/
theorem claim8_witness :
    load_data (.parsed (.list [])) [] = .error .invalidFormat :=
  (claim8_load_errors []).2.1 (.list []) rfl

/-- Claim C9: for every reachable store, saving and re-loading restores the
store exactly (whatever the store held at load time): every reachable store
has unique keys and non-negative quantities, so each saved entry passes the
load filter unchanged and in order. -/
theorem claim9_persistence (s t : Store) (h : Reachable s) :
    load_data (.parsed (save_data s)) t = .ok s :=
  save_load_roundtrip s t (reachable_storeInv s h)

/-- Witness for C9 at the spec's example: `add("apple", 7); save; load`
yields exactly `{"apple": 7}`. -/
theorem claim9_witness :
    load_data (.parsed (save_data [("apple", 7)])) [] =
      .ok [("apple", 7)] :=
  claim9_persistence [("apple", 7)] []
    (Reachable.addStep [] "apple" (.int 7) Option.none "t" [("apple", 7)]
      Option.none Reachable.empty rfl)

/-- Claim C10: Python's `bool` passes the `isinstance(_, int)` validations.
`add_item` with `True` succeeds and adds 1 (`False` adds 0); `remove_item`
and `check_low_items` with a `bool` behave exactly as with the corresponding
int; and `load_data` keeps an entry whose value is `true`/`false` as
quantity 1/0 instead of dropping it. -/
theorem claim10_bool_subtype (item : String) (s t : Store)
    (logs : Option (List String)) (now : String) (k : String) (b : Bool)
    (hitem : isBlank item = false) :
    add_item item (.bool true) logs now s =
      .ok (dictSet s item (dictGet s item 0 + 1),
           logs.map (fun l => l ++ [logLine now (.bool true) item])) ∧
    add_item item (.bool false) logs now s =
      .ok (dictSet s item (dictGet s item 0 + 0),
           logs.map (fun l => l ++ [logLine now (.bool false) item])) ∧
    remove_item item (.bool true) s = remove_item item (.int 1) s ∧
    remove_item item (.bool false) s = remove_item item (.int 0) s ∧
    check_low_items (.bool true) s = check_low_items (.int 1) s ∧
    load_data (.parsed (.dict [((.str k : PyVal), (.bool b : PyVal))])) t =
      .ok [(k, if b then 1 else 0)] := by
  refine ⟨?_, ?_, rfl, rfl, rfl, ?_⟩
  · exact add_item_eq item (.bool true) logs now s hitem rfl (by decide)
  · exact add_item_eq item (.bool false) logs now s hitem rfl (by decide)
  · cases b <;> rfl

/-- Witness for C10: with a bool quantity, a concrete `remove_item` call
matches the integer-quantity call. -/
theorem claim10_witness :
    remove_item "x" (.bool true) [("x", 2)] = remove_item "x" (.int 1) [("x", 2)] :=
  (claim10_bool_subtype "x" [("x", 2)] [] Option.none "t" "k" true
    (by decide)).2.2.1
